import Mathlib

/-!
Verification of the option-backtest core: quote deduplication, leg/strategy
resolution, hold-to-maturity valuation, the margin/capital model, and the
implied-volatility solver, shallowly embedded over exact rationals.
Monetary amounts, strikes and premiums are modelled as rationals; dates as
natural numbers; SQL NULL / pandas NaN as Option.
-/

/-- Option type of a leg or quote (column `cp` / `leg_type`). -/
inductive OptKind
  | call
  | put
  deriving DecidableEq

/-- Direction of a leg (column `leg_direction`). -/
inductive DirKind
  | buy
  | sell
  deriving DecidableEq

/-- The contract multiplier constant from `lib/constants.py`. -/
def CONTRACT_MULTIPLIER : ℚ := 100

/-- One row of the merged per-leg frame that
`summarize_hold_to_maturity_strategy_from_entries` groups by
(entry_date, expiry) and hands to `_compute_condor_capital_for_group`.
`epsSigned` is the column `entry_premium_signed`
(= entry_last * CONTRACT_MULTIPLIER * leg_quantity * sign). -/
structure LegRow where
  legType : OptKind
  legDir : DirKind
  strike : ℚ
  qty : ℤ
  entryLast : ℚ
  epsSigned : ℚ
  deriving DecidableEq

def isShortCall (r : LegRow) : Bool :=
  r.legType == OptKind.call && r.legDir == DirKind.sell

def isLongCall (r : LegRow) : Bool :=
  r.legType == OptKind.call && r.legDir == DirKind.buy

def isShortPut (r : LegRow) : Bool :=
  r.legType == OptKind.put && r.legDir == DirKind.sell

def isLongPut (r : LegRow) : Bool :=
  r.legType == OptKind.put && r.legDir == DirKind.buy

/-- Embedding of `_compute_condor_capital_for_group` from
`src/lib/option_strat.py`.  Returns `none` where the Python code returns
`float("nan")` (capital undefined).  The strangle/straddle branch fires when
no long legs are present and at least one short leg is; otherwise the
four-leg iron-condor branch requires all four legs, clamps each wing width
at zero, refuses groups where both widths are zero or the spread count is
nonpositive, and floors the capital at zero. -/
def computeCondorCapitalForGroup (g : List LegRow) : Option ℚ :=
  let sc := g.filter isShortCall
  let lc := g.filter isLongCall
  let sp := g.filter isShortPut
  let lp := g.filter isLongPut
  if lc.isEmpty && lp.isEmpty && (!sc.isEmpty || !sp.isEmpty) then
    let strikes : List ℚ :=
      (match sc.head? with
       | some r => [r.strike]
       | none => []) ++
      (match sp.head? with
       | some r => [r.strike]
       | none => [])
    let underlyingEst : ℚ := strikes.sum / (strikes.length : ℚ)
    let callMargin : ℚ :=
      match sc.head? with
      | none => 0
      | some r =>
        let q : ℚ := (r.qty : ℚ)
        let callCredit : ℚ := -r.epsSigned
        let callOtm : ℚ := max 0 (r.strike - underlyingEst) * CONTRACT_MULTIPLIER * q
        let m1 : ℚ := 0.20 * underlyingEst * CONTRACT_MULTIPLIER * q - callOtm + callCredit
        let m2 : ℚ := 0.10 * underlyingEst * CONTRACT_MULTIPLIER * q + callCredit
        max m1 m2
    let putMargin : ℚ :=
      match sp.head? with
      | none => 0
      | some r =>
        let q : ℚ := (r.qty : ℚ)
        let putCredit : ℚ := -r.epsSigned
        let putOtm : ℚ := max 0 (underlyingEst - r.strike) * CONTRACT_MULTIPLIER * q
        let m1 : ℚ := 0.20 * underlyingEst * CONTRACT_MULTIPLIER * q - putOtm + putCredit
        let m2 : ℚ := 0.10 * r.strike * CONTRACT_MULTIPLIER * q + putCredit
        max m1 m2
    some (max callMargin putMargin)
  else
    match sc.head?, lc.head?, sp.head?, lp.head? with
    | some scr, some lcr, some spr, some lpr =>
      let widthCall : ℚ := max 0 (lcr.strike - scr.strike)
      let widthPut : ℚ := max 0 (spr.strike - lpr.strike)
      if widthCall = 0 && widthPut = 0 then
        none
      else
        let spreadsCount : ℤ := min (min scr.qty lcr.qty) (min spr.qty lpr.qty)
        if spreadsCount ≤ 0 then
          none
        else
          let nepTotal : ℚ := (g.map LegRow.epsSigned).sum
          let creditTotal : ℚ := -nepTotal
          let maxWingTotal : ℚ := max widthCall widthPut * CONTRACT_MULTIPLIER * (spreadsCount : ℚ)
          some (max (maxWingTotal - creditTotal) 0)
    | _, _, _, _ => none

/-- The per-side naked-margin formula exactly as the spec states it for the
short strangle/straddle shape: `max(20% x underlying - OTM_amount + credit,
10% x base + credit) x 100 x quantity`, with per-share OTM amount and
per-share credit; `base` is the underlying estimate on the call side and
the put strike on the put side. -/
def specSideMargin (u otmAmt credit base : ℚ) (qty : ℤ) : ℚ :=
  max (0.20 * u - otmAmt + credit) (0.10 * base + credit) * 100 * (qty : ℚ)

/-- The iron-condor capital formula exactly as the claim states it:
`max(long_call_strike - short_call_strike, short_put_strike - long_put_strike)
x 100 x min quantity - total credit`, floored at zero; the wing widths are
not clamped individually. -/
def specCondorCapital (scK lcK spK lpK credit : ℚ) (minQty : ℤ) : ℚ :=
  max (max (lcK - scK) (spK - lpK) * 100 * (minQty : ℚ) - credit) 0

theorem qmax_mul_right_nonneg (a b c : ℚ) (hc : 0 ≤ c) :
    max a b * c = max (a * c) (b * c) := by
  rcases le_total a b with h | h
  · rw [max_eq_right h, max_eq_right (mul_le_mul_of_nonneg_right h hc)]
  · rw [max_eq_left h, max_eq_left (mul_le_mul_of_nonneg_right h hc)]

theorem specSideMargin_expand (u otmAmt credit base : ℚ) (qty : ℤ)
    (h : (0:ℚ) ≤ (qty : ℚ)) :
    specSideMargin u otmAmt credit base qty =
      max (0.20 * u * 100 * (qty : ℚ) - otmAmt * 100 * (qty : ℚ) + credit * 100 * (qty : ℚ))
        (0.10 * base * 100 * (qty : ℚ) + credit * 100 * (qty : ℚ)) := by
  rw [specSideMargin, mul_assoc, qmax_mul_right_nonneg _ _ _ (by positivity)]
  congr 1
  · ring
  · ring

/-- Claim C2: for a group holding only short legs with both a short call and a
short put present (short strangle/straddle), the capital-at-risk computed by
`_compute_condor_capital_for_group` is the larger of the call-side and
put-side naked margins, each given by the spec formula
`max(20% x underlying - OTM + credit, 10% x underlying-or-put-strike + credit)
x 100 x qty`, with the underlying estimated as the average of the two short
strikes.  The hypotheses on `epsSigned` record how the pipeline computes
`entry_premium_signed` for SELL legs (sign = -1). -/
theorem strangle_capital_is_max_side_margin (g : List LegRow) (scr spr : LegRow)
    (sct spt : List LegRow)
    (hlc : g.filter isLongCall = [])
    (hlp : g.filter isLongPut = [])
    (hsc : g.filter isShortCall = scr :: sct)
    (hsp : g.filter isShortPut = spr :: spt)
    (hq1 : 1 ≤ scr.qty) (hq2 : 1 ≤ spr.qty)
    (he1 : scr.epsSigned = -(scr.entryLast * CONTRACT_MULTIPLIER * (scr.qty : ℚ)))
    (he2 : spr.epsSigned = -(spr.entryLast * CONTRACT_MULTIPLIER * (spr.qty : ℚ))) :
    computeCondorCapitalForGroup g =
      some (max
        (specSideMargin ((scr.strike + spr.strike) / 2)
          (max 0 (scr.strike - (scr.strike + spr.strike) / 2)) scr.entryLast
          ((scr.strike + spr.strike) / 2) scr.qty)
        (specSideMargin ((scr.strike + spr.strike) / 2)
          (max 0 ((scr.strike + spr.strike) / 2 - spr.strike)) spr.entryLast
          spr.strike spr.qty)) := by
  simp only [computeCondorCapitalForGroup, hlc, hlp, hsc, hsp, List.isEmpty_nil,
    List.isEmpty_cons, List.head?_cons, Bool.not_false, Bool.true_and, Bool.or_self,
    Bool.and_self, if_true, CONTRACT_MULTIPLIER, List.cons_append, List.nil_append,
    List.sum_cons, List.sum_nil, List.length_cons, List.length_nil, add_zero,
    zero_add, one_add_one_eq_two, Nat.cast_ofNat]
  have hc1 : (0:ℚ) ≤ (scr.qty : ℚ) := by exact_mod_cast le_trans zero_le_one hq1
  have hc2 : (0:ℚ) ≤ (spr.qty : ℚ) := by exact_mod_cast le_trans zero_le_one hq2
  refine congrArg some ?_
  rw [specSideMargin_expand _ _ _ _ _ hc1, specSideMargin_expand _ _ _ _ _ hc2, he1, he2]
  simp only [CONTRACT_MULTIPLIER]
  congr 1
  · congr 1
    · ring
    · ring
  · congr 1
    · ring
    · ring

/-- A concrete short strangle: short 110 call at 2.00, short 90 put at 3.00,
one contract each. -/
def strangleScRow : LegRow :=
  { legType := OptKind.call, legDir := DirKind.sell, strike := 110, qty := 1,
    entryLast := 2, epsSigned := -200 }

def strangleSpRow : LegRow :=
  { legType := OptKind.put, legDir := DirKind.sell, strike := 90, qty := 1,
    entryLast := 3, epsSigned := -300 }

def strangleGroup : List LegRow := [strangleScRow, strangleSpRow]

theorem strangle_capital_witness :
    computeCondorCapitalForGroup strangleGroup = some 1300 := by
  have h := strangle_capital_is_max_side_margin strangleGroup strangleScRow strangleSpRow
    [] [] rfl rfl rfl rfl (by decide) (by decide)
    (by norm_num [strangleScRow, CONTRACT_MULTIPLIER])
    (by norm_num [strangleSpRow, CONTRACT_MULTIPLIER])
  rw [h]
  norm_num [specSideMargin, strangleScRow, strangleSpRow]

theorem qmax_clamp_pair (a b : ℚ) (h : 0 < max a b) :
    max (max 0 a) (max 0 b) = max a b := by
  rw [sup_sup_sup_comm, sup_idem]
  exact sup_eq_right.mpr (le_of_lt h)

/-- A four-leg group whose wings are both inverted: short 100 call, long 95
call, short 90 put, long 95 put, one contract each, total credit 90. -/
def invertedCondorGroup : List LegRow :=
  [{ legType := OptKind.call, legDir := DirKind.sell, strike := 100, qty := 1,
     entryLast := 1, epsSigned := -100 },
   { legType := OptKind.call, legDir := DirKind.buy, strike := 95, qty := 1,
     entryLast := 0.5, epsSigned := 50 },
   { legType := OptKind.put, legDir := DirKind.sell, strike := 90, qty := 1,
     entryLast := 0.8, epsSigned := -80 },
   { legType := OptKind.put, legDir := DirKind.buy, strike := 95, qty := 1,
     entryLast := 0.4, epsSigned := 40 }]

/-- Counterexample to claim C3 as stated: on a four-leg group whose wing
widths are both negative (long call below the short call, short put below
the long put), the code returns NaN (capital undefined) while the claimed
formula `max(lcK-scK, spK-lpK) x 100 x minqty - credit` floored at zero
yields 0.  So the capital does not always equal the claimed formula. -/
theorem condor_capital_claim_counterexample :
    computeCondorCapitalForGroup invertedCondorGroup = none ∧
      specCondorCapital 100 95 90 95 90 1 = 0 := by
  constructor
  · have hsc : List.filter isShortCall invertedCondorGroup =
        [{ legType := OptKind.call, legDir := DirKind.sell, strike := 100, qty := 1,
           entryLast := 1, epsSigned := -100 }] := rfl
    have hlc : List.filter isLongCall invertedCondorGroup =
        [{ legType := OptKind.call, legDir := DirKind.buy, strike := 95, qty := 1,
           entryLast := 0.5, epsSigned := 50 }] := rfl
    have hsp : List.filter isShortPut invertedCondorGroup =
        [{ legType := OptKind.put, legDir := DirKind.sell, strike := 90, qty := 1,
           entryLast := 0.8, epsSigned := -80 }] := rfl
    have hlp : List.filter isLongPut invertedCondorGroup =
        [{ legType := OptKind.put, legDir := DirKind.buy, strike := 95, qty := 1,
           entryLast := 0.4, epsSigned := 40 }] := rfl
    have h1 : (0:ℚ) ⊔ (95 - 100) = 0 := sup_eq_left.mpr (by norm_num)
    have h2 : (0:ℚ) ⊔ (90 - 95) = 0 := sup_eq_left.mpr (by norm_num)
    simp only [computeCondorCapitalForGroup, hsc, hlc, hsp, hlp, List.isEmpty_cons,
      Bool.false_and, Bool.and_false, Bool.false_eq_true, if_false, List.head?_cons,
      h1, h2, Bool.and_eq_true, decide_eq_true_eq, and_self, ite_true, if_true]
  · norm_num [specCondorCapital]


/-- Claim C3 (amended): for a group containing a short call, long call,
short put and long put, with all four leg quantities positive and at least
one strictly positive wing width, `_compute_condor_capital_for_group`
returns `max(long_call_strike - short_call_strike, short_put_strike -
long_put_strike) x 100 x min-quantity - total credit`, floored at zero; in
particular whenever the total credit is at least the wing value the capital
is exactly zero.  (The code clamps each wing width at zero and returns NaN
when both clamped widths are zero or the minimum quantity is nonpositive,
which is where the unamended claim fails.) -/
theorem condor_capital_amended (g : List LegRow) (scr lcr spr lpr : LegRow)
    (sct lct spt lpt : List LegRow)
    (hsc : g.filter isShortCall = scr :: sct)
    (hlc : g.filter isLongCall = lcr :: lct)
    (hsp : g.filter isShortPut = spr :: spt)
    (hlp : g.filter isLongPut = lpr :: lpt)
    (hq : 1 ≤ min (min scr.qty lcr.qty) (min spr.qty lpr.qty))
    (hw : 0 < max (lcr.strike - scr.strike) (spr.strike - lpr.strike)) :
    computeCondorCapitalForGroup g =
      some (specCondorCapital scr.strike lcr.strike spr.strike lpr.strike
        (-(g.map LegRow.epsSigned).sum) (min (min scr.qty lcr.qty) (min spr.qty lpr.qty))) ∧
    (max (lcr.strike - scr.strike) (spr.strike - lpr.strike) * 100 *
        ((min (min scr.qty lcr.qty) (min spr.qty lpr.qty) : ℤ) : ℚ) ≤
        -(g.map LegRow.epsSigned).sum →
      computeCondorCapitalForGroup g = some 0) := by
  have hqn : ¬ (min (min scr.qty lcr.qty) (min spr.qty lpr.qty) ≤ 0) := by omega
  have hwpair : ¬ (max 0 (lcr.strike - scr.strike) = 0 ∧ max 0 (spr.strike - lpr.strike) = 0) := by
    rcases lt_sup_iff.mp hw with h | h
    · intro hpair
      have := hpair.1
      rw [max_eq_right (le_of_lt h)] at this
      exact absurd this (ne_of_gt h)
    · intro hpair
      have := hpair.2
      rw [max_eq_right (le_of_lt h)] at this
      exact absurd this (ne_of_gt h)
  have hmain : computeCondorCapitalForGroup g =
      some (specCondorCapital scr.strike lcr.strike spr.strike lpr.strike
        (-(g.map LegRow.epsSigned).sum) (min (min scr.qty lcr.qty) (min spr.qty lpr.qty))) := by
    simp only [computeCondorCapitalForGroup, hsc, hlc, hsp, hlp, List.isEmpty_cons,
      Bool.false_and, Bool.and_false, if_false, List.head?_cons, Bool.and_eq_true,
      decide_eq_true_eq, hwpair, hqn, if_neg, not_false_iff, ite_false,
      Bool.false_eq_true]
    rw [specCondorCapital, qmax_clamp_pair _ _ hw, CONTRACT_MULTIPLIER]
  refine ⟨hmain, fun hcred => ?_⟩
  rw [hmain, specCondorCapital, sup_eq_right.mpr (by linarith)]

/-- A regular iron condor: short 105 call, long 110 call, short 95 put,
long 90 put, one contract each, total credit 200.  Wing width 5, so the
capital is 5 x 100 - 200 = 300. -/
def regularCondorGroup : List LegRow :=
  [{ legType := OptKind.call, legDir := DirKind.sell, strike := 105, qty := 1,
     entryLast := 1.5, epsSigned := -150 },
   { legType := OptKind.call, legDir := DirKind.buy, strike := 110, qty := 1,
     entryLast := 0.5, epsSigned := 50 },
   { legType := OptKind.put, legDir := DirKind.sell, strike := 95, qty := 1,
     entryLast := 1.4, epsSigned := -140 },
   { legType := OptKind.put, legDir := DirKind.buy, strike := 90, qty := 1,
     entryLast := 0.4, epsSigned := 40 }]

theorem condor_capital_amended_witness :
    computeCondorCapitalForGroup regularCondorGroup = some 300 := by
  have h := condor_capital_amended regularCondorGroup
    { legType := OptKind.call, legDir := DirKind.sell, strike := 105, qty := 1,
      entryLast := 1.5, epsSigned := -150 }
    { legType := OptKind.call, legDir := DirKind.buy, strike := 110, qty := 1,
      entryLast := 0.5, epsSigned := 50 }
    { legType := OptKind.put, legDir := DirKind.sell, strike := 95, qty := 1,
      entryLast := 1.4, epsSigned := -140 }
    { legType := OptKind.put, legDir := DirKind.buy, strike := 90, qty := 1,
      entryLast := 0.4, epsSigned := 40 }
    [] [] [] [] rfl rfl rfl rfl (by decide) (by norm_num)
  rw [h.1]
  norm_num [specCondorCapital, regularCondorGroup]

/-- A quote row as both dedup call sites see it: the dedup key columns of
`options_daily` plus the two ranking columns.  `openInterest` and `bid` are
nullable in the table, hence `Option`. -/
structure VQuote where
  ticker : ℕ
  tradeDate : ℕ
  cp : OptKind
  strike : ℚ
  expiry : ℕ
  openInterest : Option ℤ
  bid : Option ℚ
  deriving DecidableEq

/-- `open_interest DESC NULLS LAST`: x comes strictly before y. -/
def oiDescBefore : Option ℤ → Option ℤ → Bool
  | some x, some y => decide (y < x)
  | some _, none => true
  | none, _ => false

/-- `bid DESC`: x comes strictly before y.  Trino sorts NULL last by default
in either direction, so a NULL bid sorts after every non-NULL bid. -/
def bidDescBefore : Option ℚ → Option ℚ → Bool
  | some x, some y => decide (y < x)
  | some _, none => true
  | none, _ => false

/-- The `ROW_NUMBER() OVER (... ORDER BY open_interest DESC NULLS LAST,
bid DESC)` ranking of dedup_v3.py's CTAS: a ranks strictly before b. -/
def ranksBeforeV3 (a b : VQuote) : Bool :=
  oiDescBefore a.openInterest b.openInterest ||
    (a.openInterest == b.openInterest && bidDescBefore a.bid b.bid)

/-- The `ROW_NUMBER() OVER (... ORDER BY open_interest DESC NULLS LAST,
bid DESC) AS dedup_rn` ranking inside fetch_strangle_trades. -/
def ranksBeforeStrangle (a b : VQuote) : Bool :=
  oiDescBefore a.openInterest b.openInterest ||
    (a.openInterest == b.openInterest && bidDescBefore a.bid b.bid)

/-- The `rn = 1` row of a window partition: the row no other row of the
partition strictly outranks, taking the earliest such row on ties. -/
def pickBest {α : Type} (rb : α → α → Bool) (x : α) (l : List α) : α :=
  l.foldl (fun b y => if rb y b then y else b) x

/-- Missing open interest as the bottom of the ranking order. -/
def oiWB : Option ℤ → WithBot ℤ
  | none => ⊥
  | some v => (v : WithBot ℤ)

/-- Missing bid as the bottom of the ranking order. -/
def bidWB : Option ℚ → WithBot ℚ
  | none => ⊥
  | some v => (v : WithBot ℚ)

theorem oiDescBefore_iff (x y : Option ℤ) :
    oiDescBefore x y = true ↔ oiWB y < oiWB x := by
  cases x <;> cases y <;>
    simp [oiDescBefore, oiWB, WithBot.bot_lt_coe, WithBot.coe_lt_coe]

theorem bidDescBefore_iff (x y : Option ℚ) :
    bidDescBefore x y = true ↔ bidWB y < bidWB x := by
  cases x <;> cases y <;>
    simp [bidDescBefore, bidWB, WithBot.bot_lt_coe, WithBot.coe_lt_coe]

theorem oiWB_inj (x y : Option ℤ) (h : oiWB x = oiWB y) : x = y := by
  cases x <;> cases y <;> simp_all [oiWB]

theorem ranksBeforeV3_iff (a b : VQuote) :
    ranksBeforeV3 a b = true ↔
      oiWB b.openInterest < oiWB a.openInterest ∨
        (a.openInterest = b.openInterest ∧ bidWB b.bid < bidWB a.bid) := by
  simp [ranksBeforeV3, oiDescBefore_iff, bidDescBefore_iff]

theorem ranksBeforeV3_irrefl (a : VQuote) : ranksBeforeV3 a a = false := by
  rw [← Bool.not_eq_true, ranksBeforeV3_iff]
  simp

theorem ranksBeforeV3_neg_trans (a b c : VQuote)
    (h1 : ranksBeforeV3 a b = false) (h2 : ranksBeforeV3 b c = false) :
    ranksBeforeV3 a c = false := by
  rw [← Bool.not_eq_true, ranksBeforeV3_iff] at h1 h2 ⊢
  push_neg at h1 h2 ⊢
  obtain ⟨h1o, h1b⟩ := h1
  obtain ⟨h2o, h2b⟩ := h2
  refine ⟨le_trans h1o h2o, fun hac => ?_⟩
  have hab : oiWB a.openInterest = oiWB b.openInterest :=
    le_antisymm h1o (by rw [← hac] at h2o; exact h2o)
  have hab2 : a.openInterest = b.openInterest := oiWB_inj _ _ hab
  have hbc : b.openInterest = c.openInterest := by rw [← hab2, hac]
  exact le_trans (h1b hab2) (h2b hbc)

theorem ranksBeforeV3_trans (a b c : VQuote)
    (h1 : ranksBeforeV3 a b = true) (h2 : ranksBeforeV3 b c = true) :
    ranksBeforeV3 a c = true := by
  rw [ranksBeforeV3_iff] at h1 h2 ⊢
  rcases h1 with h1 | ⟨h1e, h1b⟩
  · rcases h2 with h2 | ⟨h2e, h2b⟩
    · exact Or.inl (lt_trans h2 h1)
    · exact Or.inl (by rw [h2e] at h1; exact h1)
  · rcases h2 with h2 | ⟨h2e, h2b⟩
    · exact Or.inl (by rw [← h1e] at h2; exact h2)
    · exact Or.inr ⟨h1e.trans h2e, lt_trans h2b h1b⟩

theorem pickBest_mem {α : Type} (rb : α → α → Bool) :
    ∀ (l : List α) (x : α), pickBest rb x l ∈ x :: l := by
  intro l
  induction l with
  | nil => intro x; simp [pickBest]
  | cons y t ih =>
    intro x
    show pickBest rb (if rb y x then y else x) t ∈ x :: y :: t
    rcases List.mem_cons.mp (ih (if rb y x then y else x)) with h | h
    · rw [h]
      by_cases hc : rb y x = true
      · simp [hc]
      · simp [hc]
    · exact List.mem_cons_of_mem _ (List.mem_cons_of_mem _ h)

theorem pickBest_not_beaten {α : Type} (rb : α → α → Bool)
    (hirr : ∀ a, rb a a = false)
    (htr : ∀ a b c, rb a b = true → rb b c = true → rb a c = true)
    (hntr : ∀ a b c, rb a b = false → rb b c = false → rb a c = false) :
    ∀ (l : List α) (x p : α), p ∈ x :: l → rb p (pickBest rb x l) = false := by
  intro l
  induction l with
  | nil =>
    intro x p hp
    rw [List.mem_singleton] at hp
    rw [hp]
    exact hirr x
  | cons y t ih =>
    intro x p hp
    show rb p (pickBest rb (if rb y x then y else x) t) = false
    by_cases hyx : rb y x = true
    · rw [if_pos hyx]
      rcases List.mem_cons.mp hp with rfl | hp
      · have hy : rb y (pickBest rb y t) = false := ih y y (List.mem_cons_self y t)
        cases hc : rb p (pickBest rb y t) with
        | false => rfl
        | true => exact absurd (htr y p _ hyx hc) (by simp [hy])
      · rcases List.mem_cons.mp hp with rfl | hp
        · exact ih p p (List.mem_cons_self p t)
        · exact ih y p (List.mem_cons_of_mem _ hp)
    · rw [if_neg hyx]
      rw [Bool.not_eq_true] at hyx
      rcases List.mem_cons.mp hp with rfl | hp
      · exact ih p p (List.mem_cons_self p t)
      · rcases List.mem_cons.mp hp with rfl | hp
        · exact hntr p x _ hyx (ih x x (List.mem_cons_self x t))
        · exact ih x p (List.mem_cons_of_mem _ hp)

/-- The four duplicate quotes of the spec's tie-break example:
open_interest [NULL, 5, 5, 3], bid [9, 1, 2, 9], all sharing one key. -/
def exQuote1 : VQuote :=
  { ticker := 1, tradeDate := 10, cp := OptKind.call, strike := 100, expiry := 40,
    openInterest := none, bid := some 9 }

def exQuote2 : VQuote :=
  { ticker := 1, tradeDate := 10, cp := OptKind.call, strike := 100, expiry := 40,
    openInterest := some 5, bid := some 1 }

def exQuote3 : VQuote :=
  { ticker := 1, tradeDate := 10, cp := OptKind.call, strike := 100, expiry := 40,
    openInterest := some 5, bid := some 2 }

def exQuote4 : VQuote :=
  { ticker := 1, tradeDate := 10, cp := OptKind.call, strike := 100, expiry := 40,
    openInterest := some 3, bid := some 9 }

/-- Claim C4: the quote the dedup ranking keeps for a duplicate group is a
member of the group, has maximal open interest (a missing open interest
ranking below every present value), and maximal bid among the rows tied on
open interest; and on the spec example with open_interest [NULL, 5, 5, 3]
and bid [9, 1, 2, 9] it keeps the row with open_interest 5 and bid 2. -/
theorem dedup_keeps_max_oi_then_bid (x : VQuote) (l : List VQuote) :
    (pickBest ranksBeforeV3 x l ∈ x :: l ∧
      ∀ p ∈ x :: l,
        oiWB p.openInterest ≤ oiWB (pickBest ranksBeforeV3 x l).openInterest ∧
          (p.openInterest = (pickBest ranksBeforeV3 x l).openInterest →
            bidWB p.bid ≤ bidWB (pickBest ranksBeforeV3 x l).bid)) ∧
    pickBest ranksBeforeV3 exQuote1 [exQuote2, exQuote3, exQuote4] = exQuote3 := by
  constructor
  · refine ⟨pickBest_mem ranksBeforeV3 l x, fun p hp => ?_⟩
    have hnb := pickBest_not_beaten ranksBeforeV3 ranksBeforeV3_irrefl
      ranksBeforeV3_trans ranksBeforeV3_neg_trans l x p hp
    rw [← Bool.not_eq_true, ranksBeforeV3_iff] at hnb
    push_neg at hnb
    exact ⟨hnb.1, hnb.2⟩
  · have h21 : ranksBeforeV3 exQuote2 exQuote1 = true := by
      simp [ranksBeforeV3, oiDescBefore, exQuote1, exQuote2]
    have h32 : ranksBeforeV3 exQuote3 exQuote2 = true := by
      simp only [ranksBeforeV3, oiDescBefore, bidDescBefore, exQuote2, exQuote3,
        Bool.or_eq_true, Bool.and_eq_true, decide_eq_true_eq, beq_iff_eq,
        Option.some.injEq]
      norm_num
    have h43 : ranksBeforeV3 exQuote4 exQuote3 = false := by
      rw [← Bool.not_eq_true]
      simp only [ranksBeforeV3, oiDescBefore, bidDescBefore, exQuote3, exQuote4,
        Bool.or_eq_true, Bool.and_eq_true, decide_eq_true_eq, beq_iff_eq,
        Option.some.injEq]
      push_neg
      norm_num
    show pickBest ranksBeforeV3 exQuote1 [exQuote2, exQuote3, exQuote4] = exQuote3
    rw [pickBest, List.foldl_cons, if_pos h21, List.foldl_cons, if_pos h32,
      List.foldl_cons, if_neg (by simp [h43]), List.foldl_nil]

theorem dedup_keeps_max_oi_then_bid_witness :
    oiWB exQuote4.openInterest ≤
      oiWB (pickBest ranksBeforeV3 exQuote1 [exQuote2, exQuote3, exQuote4]).openInterest :=
  ((dedup_keeps_max_oi_then_bid exQuote1 [exQuote2, exQuote3, exQuote4]).1.2
    exQuote4 (by simp)).1

/-- The dedup partition key of dedup_v3.py:
`PARTITION BY ticker, trade_date, cp, strike, expiry`. -/
def keyV3 (q : VQuote) : ℕ × ℕ × OptKind × ℚ × ℕ :=
  (q.ticker, q.tradeDate, q.cp, q.strike, q.expiry)

/-- The dedup partition key inside fetch_strangle_trades:
`PARTITION BY ticker, trade_date, strike, expiry` (the scan is already
restricted to a single `cp` by the WHERE clause). -/
def keyStrangle (q : VQuote) : ℕ × ℕ × ℚ × ℕ :=
  (q.ticker, q.tradeDate, q.strike, q.expiry)

/-- The `rn = 1` row of one partition (none for an empty partition). -/
def bestOfGroup (rb : VQuote → VQuote → Bool) : List VQuote → Option VQuote
  | [] => none
  | a :: t => some (pickBest rb a t)

/-- One deduplication pass: for every distinct key (in order of first
occurrence) keep the `rn = 1` row of its partition. -/
def dedupBy {K : Type} [DecidableEq K] (key : VQuote → K)
    (rb : VQuote → VQuote → Bool) (qs : List VQuote) : List VQuote :=
  ((qs.map key).dedup).filterMap (fun k =>
    bestOfGroup rb (qs.filter (fun q => decide (key q = k))))

/-- The destructive batch rewrite of dedup_v3.py (`WHERE rn = 1` of the CTAS). -/
def dedupV3Month (qs : List VQuote) : List VQuote :=
  dedupBy keyV3 ranksBeforeV3 qs

/-- The inline dedup subquery of fetch_strangle_trades (`WHERE dedup_rn = 1`). -/
def dedupStrangleInline (qs : List VQuote) : List VQuote :=
  dedupBy keyStrangle ranksBeforeStrangle qs

theorem bool_eq_of_iff {a b : Bool} (h : a = true ↔ b = true) : a = b := by
  cases a <;> cases b <;> simp_all

theorem ranksBefore_sites_agree : ranksBeforeStrangle = ranksBeforeV3 := rfl

/-- Claim C5: on any quote set whose rows all carry one option type (as the
strangle scan's `WHERE cp = ...` guarantees), the batch rewrite and the
inline resolver dedup keep exactly the same rows: the two call sites
implement the same selection function. -/
theorem dedup_call_sites_agree (qs : List VQuote) (c : OptKind)
    (hcp : ∀ q ∈ qs, q.cp = c) :
    dedupV3Month qs = dedupStrangleInline qs := by
  rw [dedupV3Month, dedupStrangleInline, dedupBy, dedupBy, ranksBefore_sites_agree]
  have hemb : Function.Injective
      (fun k : ℕ × ℕ × ℚ × ℕ => (k.1, k.2.1, c, k.2.2.1, k.2.2.2)) := by
    intro k1 k2 h
    simp only [Prod.mk.injEq] at h
    obtain ⟨h1, h2, _, h3, h4⟩ := h
    exact Prod.ext h1 (Prod.ext h2 (Prod.ext h3 h4))
  have hkeys : qs.map keyV3 =
      qs.map ((fun k : ℕ × ℕ × ℚ × ℕ => (k.1, k.2.1, c, k.2.2.1, k.2.2.2)) ∘ keyStrangle) := by
    refine List.map_congr_left fun q hq => ?_
    simp [keyV3, keyStrangle, hcp q hq]
  rw [hkeys, ← List.map_map, List.dedup_map_of_injective hemb, List.filterMap_map]
  refine congrArg (fun f => List.filterMap f ((qs.map keyStrangle).dedup))
    (funext fun k => ?_)
  have hfil : qs.filter
        (fun q => decide (keyV3 q = (k.1, k.2.1, c, k.2.2.1, k.2.2.2))) =
      qs.filter (fun q => decide (keyStrangle q = k)) := by
    refine List.filter_congr fun q hq => ?_
    have hk : keyV3 q = (q.ticker, q.tradeDate, c, q.strike, q.expiry) := by
      simp [keyV3, hcp q hq]
    rcases k with ⟨k1, k2, k3, k4⟩
    refine bool_eq_of_iff ?_
    rw [hk]
    simp only [keyStrangle, decide_eq_true_eq, Prod.mk.injEq]
    tauto
  simp only [Function.comp_apply]
  exact congrArg (bestOfGroup ranksBeforeV3) hfil

theorem dedup_call_sites_agree_witness :
    dedupV3Month [exQuote2, exQuote3] = dedupStrangleInline [exQuote2, exQuote3] :=
  dedup_call_sites_agree [exQuote2, exQuote3] OptKind.call
    (by intro q hq
        rcases List.mem_cons.mp hq with rfl | hq
        · rfl
        · rcases List.mem_cons.mp hq with rfl | hq
          · rfl
          · exact absurd hq (List.not_mem_nil q))

/-- A candidate quote for one entry day of `query_entries_range_for_leg` /
`fetch_strangle_trades`: greeks and prices are nullable columns. -/
structure CQuote where
  expiry : ℤ
  strike : ℚ
  delta : Option ℚ
  bid : Option ℚ
  ask : Option ℚ
  openInterest : Option ℤ
  deriving DecidableEq

/-- The three selection modes of `query_entries_range_for_leg`. -/
inductive SelMode
  | exact
  | nextOnOrAfter
  | nearest
  deriving DecidableEq

/-- The expiry WHERE clause per mode (no clause in nearest mode). -/
def expiryClauseOk (m : SelMode) (day dte : ℤ) (q : CQuote) : Bool :=
  match m with
  | SelMode.exact => decide (q.expiry = day + dte)
  | SelMode.nextOnOrAfter => decide (day + dte ≤ q.expiry)
  | SelMode.nearest => true

/-- The leading ORDER BY column per mode: nothing for exact (constant),
the expiry for next_on_or_after, `ABS(date_diff(expiry, entry+dte))` for
nearest. -/
def primaryKey (m : SelMode) (day dte : ℤ) (q : CQuote) : ℤ :=
  match m with
  | SelMode.exact => 0
  | SelMode.nextOnOrAfter => q.expiry
  | SelMode.nearest => |q.expiry - (day + dte)|

/-- The `ABS(delta - target)` sort key; NULL delta gives a NULL key. -/
def deltaKey (t : ℚ) (q : CQuote) : Option ℚ :=
  q.delta.map (fun d => |d - t|)

/-- Ascending comparison with SQL NULLS LAST (the Trino default for ASC). -/
def ascNullsLastBefore (x y : Option ℚ) : Bool :=
  match x, y with
  | some a, some b => decide (a < b)
  | some _, none => true
  | none, _ => false

/-- The full ORDER BY of `query_entries_range_for_leg` in mode m: a sorts
strictly before b.  All three modes share the shape
(primary key, ABS(delta - target), strike). -/
def resolveBefore (m : SelMode) (day dte : ℤ) (t : ℚ) (a b : CQuote) : Bool :=
  decide (primaryKey m day dte a < primaryKey m day dte b) ||
    (primaryKey m day dte a == primaryKey m day dte b &&
      (ascNullsLastBefore (deltaKey t a) (deltaKey t b) ||
        (deltaKey t a == deltaKey t b && decide (a.strike < b.strike))))

/-- The per-day resolution of `query_entries_range_for_leg`: filter the day's
candidates by the mode's expiry clause, then keep the `rn = 1` row of the
ORDER BY.  No predicate excludes NULL delta, bid or ask. -/
def resolveDay (m : SelMode) (day dte : ℤ) (t : ℚ) (cands : List CQuote) : Option CQuote :=
  match cands.filter (expiryClauseOk m day dte) with
  | [] => none
  | a :: l => some (pickBest (resolveBefore m day dte t) a l)

/-- The candidate filter of the fetch_strangle_trades scan:
`bid > 0 AND ask > 0 AND open_interest > 0 AND
(ask - bid) / ((ask + bid) / 2) <= 0.35 AND delta IS NOT NULL`,
with SQL NULL comparisons never true. -/
def optPosQ : Option ℚ → Bool
  | some v => decide (0 < v)
  | none => false

def optPosZ : Option ℤ → Bool
  | some v => decide (0 < v)
  | none => false

def spreadRatioOk : Option ℚ → Option ℚ → Bool
  | some b, some a => decide ((a - b) / ((a + b) / 2) ≤ 0.35)
  | _, _ => false

def stranglePass (q : CQuote) : Bool :=
  optPosQ q.bid && optPosQ q.ask && optPosZ q.openInterest &&
    spreadRatioOk q.bid q.ask && q.delta.isSome

/-- A candidate whose delta, bid and ask are all missing. -/
def missingDeltaQuote : CQuote :=
  { expiry := 30, strike := 100, delta := none, bid := none, ask := none,
    openInterest := some 1 }

/-- Counterexample to claim C6 as stated: in each of the three selection
modes, a lone candidate with NULL delta, bid and ask is still ranked and
becomes the day's resolved contract — `query_entries_range_for_leg` has no
predicate excluding missing values. -/
theorem missing_delta_can_resolve :
    resolveDay SelMode.nearest 0 30 (1/4) [missingDeltaQuote] = some missingDeltaQuote ∧
    resolveDay SelMode.exact 0 30 (1/4) [missingDeltaQuote] = some missingDeltaQuote ∧
    resolveDay SelMode.nextOnOrAfter 0 30 (1/4) [missingDeltaQuote] = some missingDeltaQuote ∧
    missingDeltaQuote.delta = none ∧ missingDeltaQuote.bid = none ∧
    missingDeltaQuote.ask = none :=
  ⟨rfl, rfl, rfl, rfl, rfl, rfl⟩

/-- Claim C6 (amended): the missing-value exclusion holds only in the
fetch_strangle_trades candidate filter — any row passing it has a present
delta, bid and ask.  In `query_entries_range_for_leg` itself missing values
do not exclude a candidate (see the counterexample); they are merely never
treated as zero: on equal leading sort keys, a candidate with a present
delta always ranks strictly before one with a missing delta. -/
theorem missing_values_ranking_amended :
    (∀ q : CQuote, stranglePass q = true →
      (∃ d, q.delta = some d) ∧ (∃ b, q.bid = some b) ∧ (∃ a, q.ask = some a)) ∧
    (∀ (m : SelMode) (day dte : ℤ) (t : ℚ) (a b : CQuote),
      primaryKey m day dte a = primaryKey m day dte b →
      a.delta = none → (∃ d, b.delta = some d) →
      resolveBefore m day dte t b a = true ∧ resolveBefore m day dte t a b = false) := by
  constructor
  · intro q h
    simp only [stranglePass, Bool.and_eq_true] at h
    obtain ⟨⟨⟨⟨hb, ha⟩, _⟩, _⟩, hd⟩ := h
    refine ⟨?_, ?_, ?_⟩
    · rcases hq : q.delta with _ | d
      · rw [hq] at hd
        simp [Option.isSome] at hd
      · exact ⟨d, rfl⟩
    · rcases hq : q.bid with _ | b
      · rw [hq] at hb
        simp [optPosQ] at hb
      · exact ⟨b, rfl⟩
    · rcases hq : q.ask with _ | a
      · rw [hq] at ha
        simp [optPosQ] at ha
      · exact ⟨a, rfl⟩
  · intro m day dte t a b hpk hda hdb
    obtain ⟨d, hdb⟩ := hdb
    have hka : deltaKey t a = none := by simp [deltaKey, hda]
    have hkb : deltaKey t b = some |d - t| := by simp [deltaKey, hdb]
    constructor
    · simp [resolveBefore, hpk, hka, hkb, ascNullsLastBefore]
    · simp [resolveBefore, hpk, hka, hkb, ascNullsLastBefore]

/-- A candidate with all ranking columns present that passes the strangle
filter. -/
def presentQuote : CQuote :=
  { expiry := 30, strike := 100, delta := some 0.27, bid := some 1,
    ask := some 1.2, openInterest := some 5 }

theorem missing_values_ranking_amended_witness :
    ((∃ d, presentQuote.delta = some d) ∧ (∃ b, presentQuote.bid = some b) ∧
      (∃ a, presentQuote.ask = some a)) ∧
    resolveBefore SelMode.nearest 0 30 (1/4) presentQuote missingDeltaQuote = true ∧
    resolveBefore SelMode.nearest 0 30 (1/4) missingDeltaQuote presentQuote = false := by
  refine ⟨missing_values_ranking_amended.1 presentQuote ?_,
    missing_values_ranking_amended.2 SelMode.nearest 0 30 (1/4)
      missingDeltaQuote presentQuote rfl rfl ⟨0.27, rfl⟩⟩
  simp only [stranglePass, presentQuote, optPosQ, optPosZ, spreadRatioOk,
    Option.isSome, Bool.and_eq_true, decide_eq_true_eq]
  norm_num

/-- A pandas scalar: a finite number, a missing value (NaN / pd.NA), or an
infinity produced by dividing a nonzero number by zero.  pandas aggregates
skip missing values but propagate infinities (positive and negative
infinities are not distinguished here). -/
inductive PVal
  | num : ℚ → PVal
  | na : PVal
  | inf : PVal
  deriving DecidableEq

/-- `_safe_div` from summarize_hold_to_maturity_strategy_from_entries:
`if pd.isna(b) or b == 0: return pd.NA` else `a / b`. -/
def safeDiv (a : ℚ) (b : Option ℚ) : Option ℚ :=
  match b with
  | none => none
  | some q => if q = 0 then none else some (a / q)

/-- Elementwise float division as pandas performs it (no guard): x / 0 is an
infinity for x ≠ 0 and NaN for 0 / 0. -/
def pdDiv (a b : ℚ) : PVal :=
  if b = 0 then (if a = 0 then PVal.na else PVal.inf) else PVal.num (a / b)

/-- pandas Series.mean: missing values are skipped (skipna default), an
infinity dominates. -/
def pmean (l : List PVal) : PVal :=
  if l.contains PVal.inf then PVal.inf
  else
    match l.filterMap (fun v => match v with | PVal.num q => some q | _ => none) with
    | [] => PVal.na
    | q :: t => PVal.num ((q :: t).sum / ((q :: t).length : ℚ))

/-- One row of the fetch_strangle_trades frame under a fixed pricing choice,
with the columns summarize_strangle_trades reads.  Display rounding
(.round(2)/.round(4)) is omitted: it affects neither finiteness nor the
zero/nonzero distinctions below. -/
structure StrangleRow where
  callStrike : ℚ
  putStrike : ℚ
  callEntry : ℚ
  putEntry : ℚ
  callExit : ℚ
  putExit : ℚ
  deriving DecidableEq

def stranglePnl (r : StrangleRow) : ℚ :=
  -(r.callExit - r.callEntry) * CONTRACT_MULTIPLIER +
    -(r.putExit - r.putEntry) * CONTRACT_MULTIPLIER

def strangleNep (r : StrangleRow) : ℚ :=
  -(r.callEntry + r.putEntry) * CONTRACT_MULTIPLIER

/-- `d["return_on_credit"] = d["portfolio_pnl"] / -d["net_entry_premium"]`:
an unguarded division. -/
def strangleReturnOnCredit (r : StrangleRow) : PVal :=
  pdDiv (stranglePnl r) (-(strangleNep r))

def strangleUnderlyingEst (r : StrangleRow) : ℚ :=
  (r.callStrike + r.putStrike) / 2

def strangleCallMargin (r : StrangleRow) : ℚ :=
  let u := strangleUnderlyingEst r
  let callCredit := r.callEntry * CONTRACT_MULTIPLIER
  let callOtm := max 0 (r.callStrike - u) * CONTRACT_MULTIPLIER
  max (0.20 * u * CONTRACT_MULTIPLIER - callOtm + callCredit)
    (0.10 * u * CONTRACT_MULTIPLIER + callCredit)

def stranglePutMargin (r : StrangleRow) : ℚ :=
  let u := strangleUnderlyingEst r
  let putCredit := r.putEntry * CONTRACT_MULTIPLIER
  let putOtm := max 0 (u - r.putStrike) * CONTRACT_MULTIPLIER
  max (0.20 * u * CONTRACT_MULTIPLIER - putOtm + putCredit)
    (0.10 * r.putStrike * CONTRACT_MULTIPLIER + putCredit)

def strangleCapital (r : StrangleRow) : ℚ :=
  max (strangleCallMargin r) (stranglePutMargin r)

/-- `d["roc"] = d["portfolio_pnl"] / d["capital"]`: an unguarded division. -/
def strangleRoc (r : StrangleRow) : PVal :=
  pdDiv (stranglePnl r) (strangleCapital r)

/-- `avg_roc = grp["roc"].mean()` of summarize_strangle_trades. -/
def strangleAvgRoc (rows : List StrangleRow) : PVal :=
  pmean (rows.map strangleRoc)

/-- A strangle row whose capital and net premium are both zero while its
P&L is not. -/
def strangleZeroRow : StrangleRow :=
  { callStrike := 0, putStrike := 0, callEntry := 0, putEntry := 0,
    callExit := -1, putExit := 0 }

/-- Counterexample to claim C7 as stated: in summarize_strangle_trades the
per-entry divisions by capital and by net credit are unguarded — on a row
with zero capital and zero credit they produce an infinity, not an
"undefined" marker, and the infinity propagates into the avg_roc
aggregate. -/
theorem strangle_divisions_unguarded_counterexample :
    strangleCapital strangleZeroRow = 0 ∧
    strangleNep strangleZeroRow = 0 ∧
    strangleRoc strangleZeroRow = PVal.inf ∧
    strangleReturnOnCredit strangleZeroRow = PVal.inf ∧
    strangleAvgRoc [strangleZeroRow] = PVal.inf := by
  have hcap : strangleCapital strangleZeroRow = 0 := by
    norm_num [strangleCapital, strangleCallMargin, stranglePutMargin,
      strangleUnderlyingEst, strangleZeroRow, CONTRACT_MULTIPLIER]
  have hpnl : stranglePnl strangleZeroRow = 100 := by
    norm_num [stranglePnl, strangleZeroRow, CONTRACT_MULTIPLIER]
  have hnep : strangleNep strangleZeroRow = 0 := by
    norm_num [strangleNep, strangleZeroRow, CONTRACT_MULTIPLIER]
  have hroc : strangleRoc strangleZeroRow = PVal.inf := by
    rw [strangleRoc, hcap, hpnl, pdDiv]
    norm_num
  refine ⟨hcap, hnep, hroc, ?_, ?_⟩
  · rw [strangleReturnOnCredit, hnep, hpnl]
    norm_num [pdDiv]
  · rw [strangleAvgRoc, List.map_cons, List.map_nil, hroc, pmean]
    simp

/-- Claim C7 (amended): in summarize_hold_to_maturity_strategy_from_entries
the per-entry divisions go through `_safe_div`, which returns the explicit
pd.NA marker whenever the divisor is missing or zero and a finite quotient
otherwise, so no non-finite value arises there.  In
summarize_strangle_trades the per-entry roc and return-on-credit divisions
are unguarded: a zero divisor with nonzero numerator yields an infinity,
and any infinity in the roc column propagates into the mean aggregate. -/
theorem safe_div_markers_amended :
    (∀ a : ℚ, safeDiv a none = none) ∧
    (∀ a : ℚ, safeDiv a (some 0) = none) ∧
    (∀ (a b : ℚ), b ≠ 0 → safeDiv a (some b) = some (a / b)) ∧
    (∀ p : ℚ, p ≠ 0 → pdDiv p 0 = PVal.inf) ∧
    (∀ l : List PVal, PVal.inf ∈ l → pmean l = PVal.inf) := by
  refine ⟨fun a => rfl, fun a => by simp [safeDiv], fun a b hb => by simp [safeDiv, hb],
    fun p hp => by simp [pdDiv, hp], fun l hl => ?_⟩
  rw [pmean, if_pos]
  exact List.elem_eq_true_of_mem hl

theorem safe_div_markers_amended_witness :
    safeDiv 7 (some 0) = none ∧ safeDiv 7 (some 2) = some (7 / 2) ∧
      pdDiv 100 0 = PVal.inf ∧ pmean [PVal.num 1, PVal.inf] = PVal.inf :=
  ⟨safe_div_markers_amended.2.1 7,
    safe_div_markers_amended.2.2.1 7 2 (by norm_num),
    safe_div_markers_amended.2.2.2.1 100 (by norm_num),
    safe_div_markers_amended.2.2.2.2 [PVal.num 1, PVal.inf] (by simp)⟩

/-- One merged leg row of summarize_hold_to_maturity_strategy_from_entries,
keyed by (entry_date, expiry); `eps` is the entry_premium_signed column,
which can be missing (NaN) when an upstream price was missing. -/
structure HtmRow where
  entryDate : ℕ
  expiry : ℕ
  eps : Option ℚ
  deriving DecidableEq

def htmKey (r : HtmRow) : ℕ × ℕ := (r.entryDate, r.expiry)

/-- The groupby keys of the merged frame. -/
def htmRowKeys (rows : List HtmRow) : List (ℕ × ℕ) :=
  (rows.map htmKey).dedup

/-- `groupby(["entry_date","expiry"])["entry_premium_signed"].sum()`:
pandas skips NaN entries (skipna default), so the group sum is never NaN
and the subsequent `.notna()` filter drops nothing. -/
def htmGroupNep (rows : List HtmRow) (k : ℕ × ℕ) : ℚ :=
  ((rows.filter (fun r => decide (htmKey r = k))).filterMap HtmRow.eps).sum

/-- The EPS noise floor of the early filter. -/
def EPS9 : ℚ := 1e-9

/-- Keys surviving the early filter `nep_by_group["net_entry_premium"].abs() > EPS`. -/
def htmAllowedKeys (rows : List HtmRow) : List (ℕ × ℕ) :=
  (htmRowKeys rows).filter (fun k => decide (EPS9 < |htmGroupNep rows k|))

/-- The merged frame restricted to allowed keys (`merged[... in allowed]`). -/
def htmFilteredRows (rows : List HtmRow) : List HtmRow :=
  rows.filter (fun r => decide (htmKey r ∈ htmAllowedKeys rows))

/-- The (entry_date, expiry) groups of the summary and capital frames: both
are built by regrouping the filtered merged frame, so these are exactly the
keys that can reach any capital-based aggregate. -/
def htmSummaryKeys (rows : List HtmRow) : List (ℕ × ℕ) :=
  ((htmFilteredRows rows).map htmKey).dedup

/-- Claim C8: a group key reaches the summary (and hence any capital-based
aggregate) exactly when its skipna net entry premium exceeds the 1e-9 noise
floor in magnitude; in particular every surviving PortfolioOutcome has
|net_entry_premium| > 1e-9, and a group with net premium 1e-12 is dropped
entirely rather than scored. -/
theorem htm_summary_keys_iff_above_floor (rows : List HtmRow) (k : ℕ × ℕ) :
    k ∈ htmSummaryKeys rows ↔
      (k ∈ htmRowKeys rows ∧ EPS9 < |htmGroupNep rows k|) := by
  simp only [htmSummaryKeys, htmFilteredRows, htmAllowedKeys, htmRowKeys,
    List.mem_dedup, List.mem_map, List.mem_filter, decide_eq_true_eq]
  constructor
  · rintro ⟨r, ⟨hr, hall⟩, rfl⟩
    exact hall
  · rintro ⟨⟨r, hr, rfl⟩, hnep⟩
    exact ⟨r, ⟨hr, ⟨⟨r, hr, rfl⟩, hnep⟩⟩, rfl⟩

/-- A single group whose net entry premium is 1e-12. -/
def htmTinyRows : List HtmRow := [{ entryDate := 0, expiry := 30, eps := some 1e-12 }]

theorem htm_summary_keys_witness : ¬ ((0, 30) ∈ htmSummaryKeys htmTinyRows) := by
  intro h
  have hnep := ((htm_summary_keys_iff_above_floor htmTinyRows (0, 30)).mp h).2
  have hval : htmGroupNep htmTinyRows (0, 30) = 1e-12 := by
    rw [htmGroupNep]
    norm_num [htmKey, htmTinyRows, List.filter_cons, List.filter_nil,
      List.filterMap_cons, List.filterMap_nil, List.sum_cons, List.sum_nil]
  rw [hval, EPS9] at hnep
  rw [abs_of_nonneg (by norm_num)] at hnep
  norm_num at hnep

/-- The weekday filter: an optional set of normalized weekday numbers
(Mon=0..Sun=6, as `_normalize_weekdays` produces); a date passes when its
weekday is in the set.  Dates are day numbers with weekday = day mod 7. -/
def wdOk (flt : Option (List ℕ)) (d : ℕ) : Bool :=
  match flt with
  | none => true
  | some ws => ws.contains (d % 7)

/-- The tidy frame of query_entries_range_for_strategy: each leg's resolver
output (its list of resolved entry dates) tagged with the leg index. -/
def strategyTidy (perLeg : List (List ℕ)) : List (ℕ × ℕ) :=
  (perLeg.enum.map (fun p => p.2.map (fun d => (d, p.1)))).flatten

/-- The tidy frame after the optional weekday filter. -/
def strategyTidyWd (flt : Option (List ℕ)) (perLeg : List (List ℕ)) : List (ℕ × ℕ) :=
  (strategyTidy perLeg).filter (fun r => wdOk flt r.1)

/-- `set(s.unique()) == needed` for the rows grouped at one entry date:
every leg index below n occurs at the date and no other index does. -/
def legSetComplete (n : ℕ) (tidy : List (ℕ × ℕ)) (d : ℕ) : Bool :=
  ((List.range n).all (fun i => decide ((d, i) ∈ tidy))) &&
    (tidy.all (fun r => decide (r.1 = d → r.2 < n)))

/-- `query_entries_range_for_strategy` with require_all_legs=True: resolve
every leg, apply the weekday filter, and keep only the rows whose entry
date carries a complete set of leg indices. -/
def strategyResolve (perLeg : List (List ℕ)) (flt : Option (List ℕ)) : List (ℕ × ℕ) :=
  if perLeg.isEmpty then []
  else
    (strategyTidyWd flt perLeg).filter
      (fun r => legSetComplete perLeg.length (strategyTidyWd flt perLeg) r.1)

theorem strategyTidy_mem (perLeg : List (List ℕ)) (d i : ℕ) :
    (d, i) ∈ strategyTidy perLeg ↔ ∃ l, perLeg[i]? = some l ∧ d ∈ l := by
  simp only [strategyTidy, List.mem_flatten, List.mem_map]
  constructor
  · rintro ⟨s, ⟨p, hp, rfl⟩, hm⟩
    rw [List.mem_map] at hm
    obtain ⟨dd, hdd, heq⟩ := hm
    obtain ⟨h1, h2⟩ := Prod.mk.injEq .. ▸ heq
    rw [List.mem_enum_iff_getElem?] at hp
    refine ⟨p.2, ?_, ?_⟩
    · rw [← h2]; exact hp
    · rw [← h1]; exact hdd
  · rintro ⟨l, hl, hd⟩
    refine ⟨l.map (fun dd => (dd, i)), ⟨(i, l), ?_, rfl⟩, ?_⟩
    · rw [List.mem_enum_iff_getElem?]; exact hl
    · rw [List.mem_map]; exact ⟨d, hd, rfl⟩

theorem strategyTidy_idx_lt (perLeg : List (List ℕ)) (r : ℕ × ℕ)
    (hr : r ∈ strategyTidy perLeg) : r.2 < perLeg.length := by
  rcases r with ⟨d, i⟩
  rw [strategyTidy_mem] at hr
  obtain ⟨l, hl, _⟩ := hr
  have := List.getElem?_eq_some_iff.mp hl
  exact this.1

/-- Claim C9: for a nonempty multi-leg strategy, an entry date appears in the
require_all_legs output exactly when it passes the weekday filter and every
leg resolved on that date; so the output entry dates are precisely the
intersection of the per-leg resolution dates (after the weekday filter). -/
theorem require_all_legs_alignment (perLeg : List (List ℕ))
    (flt : Option (List ℕ)) (d : ℕ) (hne : perLeg ≠ []) :
    d ∈ (strategyResolve perLeg flt).map Prod.fst ↔
      (wdOk flt d = true ∧ ∀ l ∈ perLeg, d ∈ l) := by
  have hn : 0 < perLeg.length := List.length_pos.mpr hne
  rw [strategyResolve, if_neg (by simp [hne])]
  constructor
  · intro h
    rw [List.mem_map] at h
    obtain ⟨r, hr, rfl⟩ := h
    rw [List.mem_filter] at hr
    obtain ⟨hrw, hcomp⟩ := hr
    rw [legSetComplete, Bool.and_eq_true, List.all_eq_true] at hcomp
    obtain ⟨hall, _⟩ := hcomp
    have hwd : wdOk flt r.1 = true := by
      rw [strategyTidyWd, List.mem_filter] at hrw
      exact hrw.2
    refine ⟨hwd, ?_⟩
    rw [← List.forall_getElem]
    intro i hi
    have hmem : (r.1, i) ∈ strategyTidyWd flt perLeg := by
      have := hall i (by rw [List.mem_range]; exact hi)
      exact of_decide_eq_true this
    rw [strategyTidyWd, List.mem_filter, strategyTidy_mem] at hmem
    obtain ⟨⟨l, hl, hd⟩, _⟩ := hmem
    have : perLeg[i]? = some (perLeg[i]) := List.getElem?_eq_getElem hi
    rw [this] at hl
    have hle : perLeg[i] = l := Option.some.inj hl
    rw [hle]
    exact hd
  · rintro ⟨hwd, hall⟩
    rw [← List.forall_getElem] at hall
    have hmemw : ∀ i, i < perLeg.length → (d, i) ∈ strategyTidyWd flt perLeg := by
      intro i hi
      rw [strategyTidyWd, List.mem_filter]
      refine ⟨?_, hwd⟩
      rw [strategyTidy_mem]
      exact ⟨perLeg[i], List.getElem?_eq_getElem hi, hall i hi⟩
    rw [List.mem_map]
    refine ⟨(d, 0), ?_, rfl⟩
    rw [List.mem_filter]
    refine ⟨hmemw 0 hn, ?_⟩
    rw [legSetComplete, Bool.and_eq_true, List.all_eq_true, List.all_eq_true]
    constructor
    · intro i hi
      rw [List.mem_range] at hi
      exact decide_eq_true (hmemw i hi)
    · intro r hr
      refine decide_eq_true fun _ => ?_
      exact strategyTidy_idx_lt perLeg r (List.mem_of_mem_filter hr)

theorem require_all_legs_alignment_witness :
    2 ∈ (strategyResolve [[1, 2, 3], [2, 3, 4]] none).map Prod.fst ∧
    3 ∈ (strategyResolve [[1, 2, 3], [2, 3, 4]] none).map Prod.fst ∧
    ¬ (1 ∈ (strategyResolve [[1, 2, 3], [2, 3, 4]] none).map Prod.fst) ∧
    ¬ (4 ∈ (strategyResolve [[1, 2, 3], [2, 3, 4]] none).map Prod.fst) := by
  refine ⟨?_, ?_, ?_, ?_⟩
  · exact (require_all_legs_alignment [[1, 2, 3], [2, 3, 4]] none 2 (by simp)).mpr
      ⟨rfl, by intro l hl; fin_cases hl <;> decide⟩
  · exact (require_all_legs_alignment [[1, 2, 3], [2, 3, 4]] none 3 (by simp)).mpr
      ⟨rfl, by intro l hl; fin_cases hl <;> decide⟩
  · intro h
    have hall := ((require_all_legs_alignment [[1, 2, 3], [2, 3, 4]] none 1 (by simp)).mp h).2
    have := hall [2, 3, 4] (by simp)
    simp at this
  · intro h
    have hall := ((require_all_legs_alignment [[1, 2, 3], [2, 3, 4]] none 4 (by simp)).mp h).2
    have := hall [1, 2, 3] (by simp)
    simp at this

/-- Abstract interpretation of the transcendental math functions bs.py uses
(math.exp, math.log, math.sqrt, math.erf, math.pi).  The control-flow
property below holds for every interpretation. -/
structure TransFns where
  fexp : ℚ → ℚ
  flog : ℚ → ℚ
  fsqrt : ℚ → ℚ
  ferf : ℚ → ℚ
  fpi : ℚ

/-- `_d1_d2` from bs.py: raises ValueError (modelled as `Except.error`) when
sigma ≤ 0 or T ≤ 0. -/
def d1d2 (F : TransFns) (S K T r q sigma : ℚ) : Except Unit (ℚ × ℚ) :=
  if sigma ≤ 0 ∨ T ≤ 0 then Except.error ()
  else
    let sqT := F.fsqrt T
    let fwd := F.flog (S / K) + (r - q + 0.5 * sigma * sigma) * T
    let d1 := fwd / (sigma * sqT)
    Except.ok (d1, d1 - sigma * sqT)

def normCdf (F : TransFns) (x : ℚ) : ℚ :=
  0.5 * (1 + F.ferf (x / F.fsqrt 2))

def normPdf (F : TransFns) (x : ℚ) : ℚ :=
  F.fexp (-0.5 * x * x) / F.fsqrt (2 * F.fpi)

/-- `bs_price` from bs.py; propagates the ValueError of `_d1_d2`. -/
def bsPrice (F : TransFns) (S K T r q sigma : ℚ) (ot : OptKind) : Except Unit ℚ :=
  match d1d2 F S K T r q sigma with
  | Except.error e => Except.error e
  | Except.ok (d1, d2) =>
    let discR := F.fexp (-(r * T))
    let discQ := F.fexp (-(q * T))
    match ot with
    | OptKind.call => Except.ok (S * discQ * normCdf F d1 - K * discR * normCdf F d2)
    | OptKind.put => Except.ok (K * discR * normCdf F (-d2) - S * discQ * normCdf F (-d1))

/-- `vega` from bs.py. -/
def vegaFn (F : TransFns) (S K T r q sigma : ℚ) : Except Unit ℚ :=
  match d1d2 F S K T r q sigma with
  | Except.error e => Except.error e
  | Except.ok (d1, _) => Except.ok (S * F.fexp (-(q * T)) * normPdf F d1 * F.fsqrt T)

inductive NewtonRes
  | found : ℚ → NewtonRes
  | fallback : NewtonRes
  deriving DecidableEq

/-- The Newton stage of `implied_vol`: the whole loop body sits in a
try/except ValueError whose handler breaks to the bisection stage, so an
error from `bs_price` or `vega` exits the loop rather than propagating. -/
def newtonLoop (F : TransFns) (price S K T r q : ℚ) (ot : OptKind)
    (tol sigmaHi : ℚ) : ℕ → ℚ → NewtonRes
  | 0, _ => NewtonRes.fallback
  | fuel + 1, sigma =>
    match bsPrice F S K T r q sigma ot with
    | Except.error _ => NewtonRes.fallback
    | Except.ok model =>
      let diff := model - price
      if |diff| < tol then NewtonRes.found sigma
      else
        match vegaFn F S K T r q sigma with
        | Except.error _ => NewtonRes.fallback
        | Except.ok v =>
          if v < 1e-12 then NewtonRes.fallback
          else
            let sigma2 := sigma - diff / v
            if sigma2 ≤ 0 ∨ sigmaHi < sigma2 then NewtonRes.fallback
            else newtonLoop F price S K T r q ot tol sigmaHi fuel sigma2

/-- The bisection stage of `implied_vol`; its `bs_price` calls are not
guarded by any try/except, so a ValueError propagates out. -/
def bisectLoop (F : TransFns) (price S K T r q : ℚ) (ot : OptKind)
    (tol : ℚ) : ℕ → ℚ → ℚ → ℚ → ℚ → Except Unit ℚ
  | 0, lo, hi, _, _ => Except.ok (0.5 * (lo + hi))
  | fuel + 1, lo, hi, flo, fhi =>
    let mid := 0.5 * (lo + hi)
    match bsPrice F S K T r q mid ot with
    | Except.error e => Except.error e
    | Except.ok pm =>
      let fmid := pm - price
      if |fmid| < tol then Except.ok mid
      else if flo * fmid ≤ 0 then bisectLoop F price S K T r q ot tol fuel lo mid flo fmid
      else bisectLoop F price S K T r q ot tol fuel mid hi fmid fhi

/-- `implied_vol` from bs.py: Newton first; on fallthrough, evaluate the
bracket with unguarded `bs_price` calls; `Except.ok none` is the "no
solution" return (None), `Except.error` a propagating ValueError. -/
def impliedVol (F : TransFns) (price S K T r q : ℚ) (ot : OptKind)
    (sigmaInit tol : ℚ) (maxIter : ℕ) (sigmaLo sigmaHi : ℚ) : Except Unit (Option ℚ) :=
  match newtonLoop F price S K T r q ot tol sigmaHi maxIter sigmaInit with
  | NewtonRes.found s => Except.ok (some s)
  | NewtonRes.fallback =>
    match bsPrice F S K T r q sigmaLo ot with
    | Except.error e => Except.error e
    | Except.ok plo =>
      match bsPrice F S K T r q sigmaHi ot with
      | Except.error e => Except.error e
      | Except.ok phi =>
        let flo := plo - price
        let fhi := phi - price
        if flo * fhi > 0 then Except.ok none
        else
          match bisectLoop F price S K T r q ot tol maxIter sigmaLo sigmaHi flo fhi with
          | Except.error e => Except.error e
          | Except.ok m => Except.ok (some m)

/-- `implied_vol` with its default arguments:
sigma_init 0.3, tol 1e-8, max_iter 100, sigma_lo 1e-4, sigma_hi 5.0. -/
def impliedVolDefault (F : TransFns) (price S K T r q : ℚ) (ot : OptKind) :
    Except Unit (Option ℚ) :=
  impliedVol F price S K T r q ot 0.3 1e-8 100 1e-4 5.0

/-- Claim C10: for any time-to-expiry T ≤ 0 (under every interpretation of
the transcendental functions), `implied_vol` raises ValueError instead of
returning None: every Newton iteration's `bs_price` raises, the except
clause breaks to the fallback, and the bisection bracket evaluation calls
`bs_price` unguarded, which raises again and propagates. -/
theorem implied_vol_raises_on_nonpositive_T (F : TransFns)
    (price S K T r q : ℚ) (ot : OptKind) (hT : T ≤ 0) :
    impliedVolDefault F price S K T r q ot = Except.error () := by
  have hbs : ∀ sigma, bsPrice F S K T r q sigma ot = Except.error () := by
    intro sigma
    rw [bsPrice, d1d2, if_pos (Or.inr hT)]
  have hn : ∀ (fuel : ℕ) (sigma : ℚ),
      newtonLoop F price S K T r q ot (1e-8) 5.0 fuel sigma = NewtonRes.fallback := by
    intro fuel sigma
    cases fuel with
    | zero => rfl
    | succ n =>
      rw [newtonLoop, hbs sigma]
  rw [impliedVolDefault, impliedVol, hn, hbs]

/-- A trivial interpretation of the transcendental functions. -/
def trivialTransFns : TransFns :=
  { fexp := fun x => x, flog := fun x => x, fsqrt := fun x => x,
    ferf := fun x => x, fpi := 3 }

theorem implied_vol_raises_witness :
    impliedVolDefault trivialTransFns 1 100 90 0 0 0 OptKind.call = Except.error () :=
  implied_vol_raises_on_nonpositive_T trivialTransFns 1 100 90 0 0 0 OptKind.call
    le_rfl
